import Mathlib

/-!
Verification development for the hakurei repository core: the cgroup
configuration model (`hst`), the transactional op engine (`internal/system`),
and the outcome planner (`internal/outcome`), shallowly embedded in Lean 4.

Pure functions are translated from the Go source; machinery of the repository
that is referenced but whose source is not available (the op engine body,
`check.Absolute`, `hst.ID`, identity bound constants) is modelled from the
specification text, and every such definition is marked in its doc comment.
-/

set_option maxHeartbeats 1000000

/-! ## Go `path` package model (stdlib used by `CgroupConfig.slicePath`) -/

/-- Splits a character list on the separator character, Go `strings.Split` on a
single-character separator. Every separator occurrence starts a new field. -/
def splitSlash : List Char → List (List Char)
  | [] => [[]]
  | c :: cs =>
    let rest := splitSlash cs
    if c = '/' then [] :: rest
    else match rest with
      | [] => [[c]]
      | f :: fs => (c :: f) :: fs

/-- Element-stack interpretation of Go `path.Clean`: empty and `.` elements are
dropped, `..` pops a non-`..` stack entry, is dropped at the root when the path
is rooted, and is kept otherwise. -/
def cleanStack (rooted : Bool) : List (List Char) → List (List Char) → List (List Char)
  | acc, [] => acc.reverse
  | acc, p :: ps =>
    if p = [] ∨ p = ['.'] then cleanStack rooted acc ps
    else if p = ['.', '.'] then
      match acc with
      | [] => if rooted then cleanStack rooted [] ps else cleanStack rooted [['.', '.']] ps
      | top :: rest =>
        if top = ['.', '.'] then cleanStack rooted (p :: top :: rest) ps
        else cleanStack rooted rest ps
    else cleanStack rooted (p :: acc) ps

/-- Go `path.IsAbs`: the path begins with a slash. -/
def pathIsAbs (p : String) : Bool :=
  match p.data with
  | '/' :: _ => true
  | _ => false

/-- Joins cleaned path elements back together with slashes. -/
def joinParts : List (List Char) → List Char
  | [] => []
  | [p] => p
  | p :: ps => p ++ '/' :: joinParts ps

/-- Go `path.Clean`: lexically simplifies a path, resolving `.` and `..`
elements and collapsing slashes; returns `.` for an empty result. -/
def pathClean (p : String) : String :=
  if p = "" then "."
  else
    let rooted := pathIsAbs p
    let parts := cleanStack rooted [] (splitSlash p.data)
    match rooted, parts with
    | true, [] => "/"
    | true, ps => ⟨'/' :: joinParts ps⟩
    | false, [] => "."
    | false, ps => ⟨joinParts ps⟩

/-- Go `path.Join` restricted to two non-empty-relevant arguments, as used by
`CgroupConfig.slicePath` and `cgroupOp.ensurePath`. -/
def pathJoin (a b : String) : String :=
  if a = "" ∧ b = "" then ""
  else if a = "" then pathClean b
  else if b = "" then pathClean a
  else pathClean (a ++ "/" ++ b)

instance {ε α : Type} [DecidableEq ε] [DecidableEq α] : DecidableEq (Except ε α) := fun x y =>
  match x, y with
  | .ok a, .ok b =>
    if h : a = b then isTrue (by rw [h])
    else isFalse (by intro hc; cases hc; exact h rfl)
  | .ok _, .error _ => isFalse (by intro hc; cases hc)
  | .error _, .ok _ => isFalse (by intro hc; cases hc)
  | .error a, .error b =>
    if h : a = b then isTrue (by rw [h])
    else isFalse (by intro hc; cases hc; exact h rfl)

/-! ## Error model -/

/-- Sentinel errors of the `hst` package and wrapped syscall errors. -/
inductive HErr where
  /-- `syscall.EINVAL` -/
  | einval
  /-- `hst.ErrCgroupPath` -/
  | errCgroupPath
  /-- `hst.ErrConfigNull` -/
  | errConfigNull
  /-- `hst.ErrIdentityBounds` -/
  | errIdentityBounds
  /-- `hst.ErrEnviron` -/
  | errEnviron
  /-- `os.ErrExist` -/
  | errExist
  /-- `os.ErrNotExist` -/
  | errNotExist
  /-- an otherwise unidentified error -/
  | other (n : Nat)
deriving DecidableEq, Repr

/-- `hst.AppError`: a validation failure carrying a step label, a wrapped
error, and a user-facing message. -/
structure AppError where
  step : String
  err : HErr
  msg : String
deriving DecidableEq, Repr

/-! ## `check.Absolute` (modelled) -/

/-- Modelled from the spec: `check.NewAbs` (package `container/check`, source
not included) constructs an absolute path value and fails if the input is not
absolute or contains a null byte. -/
def checkNewAbs (p : String) : Option String :=
  if pathIsAbs p ∧ ¬ ('\x00' ∈ p.data) then some p else none

/-- Modelled from the spec: `check.Absolute.Append` (source not included)
appends a path element to an absolute path, yielding a new absolute path. -/
def absAppend (a e : String) : String := a ++ "/" ++ e

/-! ## `hst.ID` (modelled) -/

/-- Modelled from the spec: `hst.ID` (source not included) is a 128-bit
instance identifier, sixteen random bytes. -/
structure InstanceID where
  bytes : List (Fin 256)
  len16 : bytes.length = 16

/-- The sixteen lowercase hexadecimal digit characters. -/
def hexDigits : List Char := "0123456789abcdef".data

/-- Two lowercase hexadecimal digits encoding one byte. -/
def byteHex (b : Fin 256) : List Char :=
  [hexDigits.getD (b.val / 16) '0', hexDigits.getD (b.val % 16) '0']

/-- Modelled from the spec: `hst.ID.String` (source not included) is the
32-character lowercase hexadecimal form of the identifier. -/
def InstanceID.text (id : InstanceID) : String :=
  ⟨(id.bytes.map byteHex).flatten⟩

/-! ## `hst.CgroupConfig` (`src/unnamed/part_000`) -/

/-- `hst.CgroupRoot`: the default root for the unified cgroup hierarchy. -/
def CgroupRoot : String := "/sys/fs/cgroup"

/-- `hst.defaultCgroupSlice`: used when Slice is left unspecified. -/
def defaultCgroupSlice : String := CgroupRoot ++ "/hakurei.slice"

/-- `hst.CgroupConfig`: configures a cgroup v2 subtree for the container. -/
structure CgroupConfig where
  slice : String
  limitCPU : Nat
  limitMemory : Nat
  limitPids : Int
deriving DecidableEq, Repr

/-- `CgroupConfig.slicePath`: defaults an empty slice, joins a relative slice
under `CgroupRoot`, cleans, and converts through `check.NewAbs`, reporting
`ErrCgroupPath` on conversion failure. -/
def CgroupConfig.slicePath (c : CgroupConfig) : Except HErr String :=
  let base := if c.slice = "" then defaultCgroupSlice else c.slice
  let base := if ¬ pathIsAbs base then pathJoin CgroupRoot base else base
  let cleaned := pathClean base
  match checkNewAbs cleaned with
  | some abs => .ok abs
  | none => .error .errCgroupPath

/-- `CgroupConfig.SlicePath`: nil-receiver-checked wrapper over `slicePath`. -/
def CgroupConfig.SlicePath (c : Option CgroupConfig) : Except HErr String :=
  match c with
  | none => .error .einval
  | some c => c.slicePath

/-- `CgroupConfig.instanceRoot`: the per-identity directory under the slice. -/
def CgroupConfig.instanceRoot (c : CgroupConfig) (identity : String) : Except HErr String :=
  match c.slicePath with
  | .error e => .error e
  | .ok slice => .ok (absAppend slice ("hakurei-" ++ identity))

/-- `CgroupConfig.InstancePath`: the per-instance cgroup directory path, or
`EINVAL` for a nil receiver or nil id. -/
def CgroupConfig.InstancePath (c : Option CgroupConfig) (identity : String)
    (id : Option InstanceID) : Except HErr String :=
  match c, id with
  | none, _ => .error .einval
  | _, none => .error .einval
  | some c, some id =>
    match c.instanceRoot identity with
    | .error e => .error e
    | .ok root => .ok (absAppend root id.text)

/-- `CgroupConfig.Validate`: ensures cgroup constraints are sane; accepts a
nil receiver. -/
def CgroupConfig.Validate (c : Option CgroupConfig) : Option AppError :=
  match c with
  | none => none
  | some c =>
    if c.limitPids < 0 then
      some ⟨"validate configuration", .einval, "cgroup limit pids cannot be negative"⟩
    else
      match c.slicePath with
      | .error e => some ⟨"validate configuration", e, "invalid cgroup slice"⟩
      | .ok _ => none

/-- `ContainerConfig.validateCgroup`: a missing cgroup section is valid. -/
def ContainerConfig.validateCgroup (cgroup : Option CgroupConfig) : Option AppError :=
  match cgroup with
  | none => none
  | some c => CgroupConfig.Validate (some c)

/-! ## Transactional op engine (`internal/system`)

The engine body (`system.go`) is not included in the source tree; only its
tests and the cgroup op are. The engine below is modelled from the spec:
ops are applied in insertion order; on op `i` failing, ops `[0, i)` are
reverted in reverse order, rollback errors are logged but never mask the
original error, and the original error is returned wrapped as an `OpError`
carrying the failing op's tag; `Revert(criteria)` executes committed ops in
reverse order, skipping with a verbose log any op whose type tag does not
intersect a non-nil criteria mask, and joins the errors of executed reverts.
-/

/-- Enablement bit for Wayland. -/
def EWayland : Nat := 1
/-- Enablement bit for X11. -/
def EX11 : Nat := 2
/-- Enablement bit for D-Bus. -/
def EDBus : Nat := 4
/-- Enablement bit for PulseAudio. -/
def EPulse : Nat := 8
/-- Engine classification bit for host per-user state. -/
def UserTag : Nat := 16
/-- Engine classification bit for per-invocation state. -/
def ProcessTag : Nat := 32

/-- Modelled from the spec and `TestCriteria`: `Criteria.hasType` holds for a
nil criteria pointer on every tag except `User`, and for a non-nil criteria
mask exactly when the mask intersects the tag. -/
def criteriaHasType (ec : Option Nat) (t : Nat) : Bool :=
  match ec with
  | none => t ≠ UserTag
  | some m => m &&& t ≠ 0

/-- An op registered on the engine: a type tag, a diagnostic tag string, an
apply action and a revert action over an abstract host state `σ` with errors
`ε`. Revert reports an optional error alongside the updated state. -/
structure SysOp (σ ε : Type) where
  tag : String
  etype : Nat
  apply : σ → Except ε σ
  revert : σ → σ × Option ε

/-- `system.OpError`: a commit or revert failure carrying the op's tag string,
the wrapped cause, and whether it was raised during rollback. -/
structure OpError (ε : Type) where
  op : String
  err : ε
  isRevert : Bool
deriving DecidableEq, Repr

/-- Observable engine actions recorded during commit. -/
inductive CommitEvent (ε : Type) where
  /-- op at registration index `i` applied successfully -/
  | applied (i : Nat)
  /-- op at registration index `i` reverted during rollback -/
  | reverted (i : Nat)
  /-- rollback of op `i` raised `e`, which was logged -/
  | logged (i : Nat) (e : ε)
deriving DecidableEq, Repr

/-- Modelled from the spec: rollback of a partially committed transaction
reverts the applied ops stack (most recently applied first), logging revert
errors without propagating them. -/
def rollbackStack {σ ε : Type} : List (Nat × SysOp σ ε) → σ → σ × List (CommitEvent ε)
  | [], s => (s, [])
  | (i, op) :: rest, s =>
    let r := op.revert s
    let tail := rollbackStack rest r.1
    match r.2 with
    | none => (tail.1, .reverted i :: tail.2)
    | some e => (tail.1, .reverted i :: .logged i e :: tail.2)

/-- Modelled from the spec: the commit loop applies pending ops in order,
pushing each applied op onto the rollback stack; the first failure triggers a
rollback of the stack and returns the original error wrapped as an `OpError`
with the failing op's tag. -/
def commitAux {σ ε : Type} : Nat → List (SysOp σ ε) → List (Nat × SysOp σ ε) → σ →
    Option (OpError ε) × σ × List (CommitEvent ε)
  | _, [], _, s => (none, s, [])
  | i, op :: rest, applied, s =>
    match op.apply s with
    | .ok s' =>
      let r := commitAux (i + 1) rest ((i, op) :: applied) s'
      (r.1, r.2.1, .applied i :: r.2.2)
    | .error e =>
      let rb := rollbackStack applied s
      (some ⟨op.tag, e, false⟩, rb.1, rb.2)

/-- Modelled from the spec: `System.Commit` over the registered op list. -/
def sysCommit {σ ε : Type} (ops : List (SysOp σ ε)) (s : σ) :
    Option (OpError ε) × σ × List (CommitEvent ε) :=
  commitAux 0 ops [] s

/-- Observable engine actions recorded during an explicit revert. -/
inductive RevertEvent (ε : Type) where
  /-- op at registration index `i` had its revert executed, with its error -/
  | executed (i : Nat) (e : Option ε)
  /-- op at registration index `i` was skipped with a verbose log -/
  | skipped (i : Nat)
deriving DecidableEq, Repr

/-- Modelled from the spec and `cgroupOp.revert`: the revert loop walks the
committed ops in reverse registration order; an op whose type tag fails the
criteria check is skipped with a verbose log and its state effects are left
intact, all other ops have their revert executed and its errors accumulated. -/
def revertGo {σ ε : Type} (ec : Option Nat) :
    List (Nat × SysOp σ ε) → σ → σ × List (RevertEvent ε) × List ε
  | [], s => (s, [], [])
  | (i, op) :: rest, s =>
    if ec.isSome && ! criteriaHasType ec op.etype then
      let r := revertGo ec rest s
      (r.1, .skipped i :: r.2.1, r.2.2)
    else
      let x := op.revert s
      let r := revertGo ec rest x.1
      match x.2 with
      | none => (r.1, .executed i none :: r.2.1, r.2.2)
      | some e => (r.1, .executed i (some e) :: r.2.1, e :: r.2.2)

/-- Pairs each op with its registration index. -/
def enumOps {σ ε : Type} (ops : List (SysOp σ ε)) : List (Nat × SysOp σ ε) :=
  (List.range ops.length).zip ops

/-- Modelled from the spec: `System.Revert` executes committed ops in reverse
registration order under the criteria filter, joining accumulated errors. -/
def sysRevert {σ ε : Type} (ops : List (SysOp σ ε)) (ec : Option Nat) (s : σ) :
    σ × List (RevertEvent ε) × List ε :=
  revertGo ec (enumOps ops).reverse s

/-! ## `cgroupOp` (`internal/system/cgroup.go`) -/

/-- `system.CgroupLimits`: basic cgroup v2 resource controllers. -/
structure CgroupLimits where
  cpu : Nat
  memory : Nat
  pids : Int
deriving DecidableEq, Repr

/-- `cgroupOp`: a process-scoped cgroup operation rooted at `base` and applied
to `path` (the target), as registered by `System.Cgroup`. -/
structure cgroupOp where
  base : String
  path : String
  limits : CgroupLimits
deriving DecidableEq, Repr

/-- An error returned by `cgroupOp.apply`: the op tag, the wrapped error, the
optional message of `newOpErrorMessage`, and the revert marker. -/
structure CgOpError where
  op : String
  err : HErr
  msg : Option String
  isRevert : Bool
deriving DecidableEq, Repr

/-- The host filesystem as observed by the cgroup op: a set of existing
directories and the controller files written with their contents. -/
structure FS where
  dirs : List String
  files : List (String × String)
deriving DecidableEq, Repr

/-- Go `fmt.Sprintf("%q", s)` restricted to strings without escapes. -/
def goQuote (s : String) : String := "\"" ++ s ++ "\""

/-- Go `strings.HasPrefix` over the character sequences of the strings. -/
def strHasPfx (pre s : String) : Bool := pre.data.isPrefixOf s.data

/-- Go `strings.TrimPrefix`: removes the leading `pre` if present. -/
def trimPfx (s pre : String) : String :=
  if strHasPfx pre s then ⟨s.data.drop pre.data.length⟩ else s

/-- The mkdir loop of `cgroupOp.ensurePath`: walks the slash-separated parts
of the target relative to `base`, creating each missing component with mode
0755 and recording it; an existing final component is an error, existing
intermediate components are skipped. Returns the new filesystem, the created
directories in creation order, and the final pathname. -/
def ensureLoop (fs : FS) (created : List String) (cur : String) :
    List String → Except CgOpError (FS × List String)
  | [] => .ok (fs, created.reverse)
  | part :: rest =>
    if part = "" then ensureLoop fs created cur rest
    else
      let cur' := pathJoin cur part
      if cur' ∈ fs.dirs then
        if rest = [] then
          .error ⟨"cgroup", .errExist, some ("cgroup " ++ goQuote cur' ++ " already exists"), false⟩
        else ensureLoop fs created cur' rest
      else ensureLoop ⟨cur' :: fs.dirs, fs.files⟩ (cur' :: created) cur' rest

/-- `cgroupOp.ensurePath`: trims the base from the target, refuses a target
equal to the base, and runs the mkdir loop over the remaining components. -/
def cgroupOp.ensurePath (c : cgroupOp) (fs : FS) : Except CgOpError (FS × List String) :=
  let rel := trimPfx c.path c.base
  let rel := trimPfx rel "/"
  if rel = "" then
    .error ⟨"cgroup", .einval, some "cgroup path cannot equal slice", false⟩
  else
    ensureLoop fs [] c.base ((splitSlash rel.data).map fun p => (⟨p⟩ : String))

/-- Go `strconv`-style decimal formatting of a natural number. -/
def natDec (n : Nat) : String := toString n

/-- `cgroupOp.applyLimits`: writes `cpu.max`, `memory.max` and `pids.max`
under the target for each positive limit, recording each file written. The
file writes themselves are modelled as always succeeding. -/
def cgroupOp.applyLimits (c : cgroupOp) (fs : FS) : FS × List String :=
  let w := fun (fs : FS) (files : List String) (name value : String) =>
    let file := pathJoin c.path name
    ((⟨fs.dirs, (file, value) :: fs.files⟩ : FS), file :: files)
  let st := (fs, ([] : List String))
  let st := if c.limits.cpu > 0 then
      w st.1 st.2 "cpu.max" (natDec c.limits.cpu ++ " 100000") else st
  let st := if c.limits.memory > 0 then
      w st.1 st.2 "memory.max" (natDec c.limits.memory) else st
  let st := if c.limits.pids > 0 then
      w st.1 st.2 "pids.max" (toString c.limits.pids) else st
  (st.1, st.2.reverse)

/-- `cgroupOp.apply`: refuses a target that does not extend the base, requires
the base to exist, ensures the path components and applies the controller
limits. Returns the new filesystem with the recorded created directories and
written files. -/
def cgroupOp.apply (c : cgroupOp) (fs : FS) : Except CgOpError (FS × List String × List String) :=
  if ¬ strHasPfx c.base c.path then
    .error ⟨"cgroup", .einval, some "cgroup path escapes slice", false⟩
  else if ¬ (c.base ∈ fs.dirs) then
    .error ⟨"cgroup", .errNotExist, none, false⟩
  else
    match c.ensurePath fs with
    | .error e => .error e
    | .ok (fs', created) =>
      let r := c.applyLimits fs'
      .ok (r.1, created, r.2)

/-- The spec's notion used by the claims: `target` lies beneath (is a
descendant of) `base` when it extends it with at least one more non-empty
path component. -/
def isDescendantOf (target base : String) : Bool :=
  strHasPfx (base ++ "/") target ∧ target.data.length > (base ++ "/").data.length

/-! ## Wait-delay normalisation (`internal/outcome/outcome.go`, `newOutcomeState`) -/

/-- `hst.WaitDelayDefault`: 5 seconds in nanoseconds. -/
def WaitDelayDefault : Int := 5000000000

/-- `hst.WaitDelayMax`: 30 seconds in nanoseconds. -/
def WaitDelayMax : Int := 30000000000

/-- The wait-delay bound enforcement of `newOutcomeState`: the shim wait delay
computed from the configured `ContainerConfig.WaitDelay` (nanoseconds). -/
def shimWaitDelay (waitDelay : Int) : Int :=
  if waitDelay < 0 then 0
  else if waitDelay = 0 then WaitDelayDefault
  else if waitDelay > WaitDelayMax then WaitDelayMax
  else waitDelay

/-! ## Container flags and their JSON form (`src/unnamed/part_000`) -/

/-- `hst.FMultiarch` -/
def FMultiarch : Nat := 1
/-- `hst.FSeccompCompat` -/
def FSeccompCompat : Nat := 2
/-- `hst.FDevel` -/
def FDevel : Nat := 4
/-- `hst.FUserns` -/
def FUserns : Nat := 8
/-- `hst.FHostNet` -/
def FHostNet : Nat := 16
/-- `hst.FHostAbstract` -/
def FHostAbstract : Nat := 32
/-- `hst.FTty` -/
def FTty : Nat := 64
/-- `hst.FMapRealUID` -/
def FMapRealUID : Nat := 128
/-- `hst.FDevice` -/
def FDevice : Nat := 256
/-- `hst.FShareRuntime` -/
def FShareRuntime : Nat := 512
/-- `hst.FShareTmpdir` -/
def FShareTmpdir : Nat := 1024
/-- `hst.FAll`: all currently defined flag bits. -/
def FAll : Nat := 2047

/-- The boolean JSON fields of `containerConfigJSON` paired with the flag bit
each corresponds to, in struct declaration order. -/
def flagJSONFields : List (String × Nat) :=
  [("seccomp_compat", FSeccompCompat), ("devel", FDevel), ("userns", FUserns),
   ("host_net", FHostNet), ("host_abstract", FHostAbstract), ("tty", FTty),
   ("multiarch", FMultiarch), ("map_real_uid", FMapRealUID), ("device", FDevice),
   ("share_runtime", FShareRuntime), ("share_tmpdir", FShareTmpdir)]

/-- The flag portion of `ContainerConfig.MarshalJSON`: each flag bit becomes a
boolean field; all fields carry `omitempty` except `map_real_uid`, so a false
boolean is omitted from the emitted object unless it is `map_real_uid`. The
`Flags` field itself carries the tag `json:"-"` and is never emitted. -/
def marshalFieldEntry (flags : Nat) (nb : String × Nat) : Option (String × Bool) :=
  let v : Bool := flags &&& nb.2 ≠ 0
  if v ∨ nb.1 = "map_real_uid" then some (nb.1, v) else none

/-- The emitted boolean fields, built by filtering the per-field entries. -/
def marshalFlagFields (flags : Nat) : List (String × Bool) :=
  flagJSONFields.filterMap (marshalFieldEntry flags)

/-- Reads a boolean field from an emitted JSON object: an absent field yields
the Go zero value `false`. -/
def lookupField (fields : List (String × Bool)) (name : String) : Bool :=
  match fields.lookup name with
  | some b => b
  | none => false

/-- The flag portion of `ContainerConfig.UnmarshalJSON`: the `Flags` value
starts from zero (the bitmask is not persisted) and each true boolean field
sets its corresponding bit. -/
def unmarshalFlags (fields : List (String × Bool)) : Nat :=
  flagJSONFields.foldl (fun acc nb => if lookupField fields nb.1 then acc ||| nb.2 else acc) 0

/-! ## `Config.Validate` (`src/unnamed/part_000`) -/

/-- Modelled from the spec: `hst.IdentityStart` (constant defined outside the
included sources), the lowest valid identity. -/
def IdentityStart : Int := 1

/-- Modelled from the spec: `hst.IdentityEnd` (constant defined outside the
included sources), the highest valid identity. -/
def IdentityEnd : Int := 9999

/-- `hst.ContainerConfig`, restricted to the fields `Config.Validate` reads.
Bus proxy interface checks live outside the included sources, so their
results are carried as fields. -/
structure ContainerConfig where
  home : Option String
  shell : Option String
  path : Option String
  envKeys : List String
  flags : Nat
  waitDelay : Int
  cgroup : Option CgroupConfig

/-- `hst.Config`, restricted to the fields `Config.Validate` reads.
`sessionBusCheck` and `systemBusCheck` carry the outcome of
`BusConfig.CheckInterfaces`, whose source is not included. -/
structure Config where
  identity : Int
  sessionBusCheck : Option AppError
  systemBusCheck : Option AppError
  container : Option ContainerConfig

/-- The environment key scan of `Config.Validate`: a key containing `=` or a
NUL byte is invalid. -/
def invalidEnvKey (key : String) : Bool :=
  '=' ∈ key.data ∨ '\x00' ∈ key.data

/-- Go early-return sequencing: the first check to report an error wins. -/
def firstErr (a b : Option AppError) : Option AppError :=
  match a with
  | some e => some e
  | none => b

/-- The required-path checks of `Config.Validate`, in source order. -/
def requiredPathChecks (ct : ContainerConfig) : Option AppError :=
  if ct.home = none then
    some ⟨"validate configuration", .errConfigNull,
      "container configuration missing path to home directory"⟩
  else if ct.shell = none then
    some ⟨"validate configuration", .errConfigNull,
      "container configuration missing path to shell"⟩
  else if ct.path = none then
    some ⟨"validate configuration", .errConfigNull,
      "container configuration missing path to initial program"⟩
  else none

/-- The environment key scan loop of `Config.Validate`. -/
def envKeyCheck (ct : ContainerConfig) : Option AppError :=
  match ct.envKeys.find? invalidEnvKey with
  | some key => some ⟨"validate configuration", .errEnviron,
      "invalid environment variable " ++ goQuote key⟩
  | none => none

/-- The checks `Config.Validate` performs after the identity bounds check, in
source order: bus interface checks, container presence, required paths, the
cgroup section, and environment variable keys; the first failure wins. -/
def validatePostBounds (c : Config) : Option AppError :=
  firstErr c.sessionBusCheck
    (firstErr c.systemBusCheck
      (match c.container with
       | none => some ⟨"validate configuration", .errConfigNull,
           "configuration missing container state"⟩
       | some ct =>
         firstErr (requiredPathChecks ct)
           (firstErr (ContainerConfig.validateCgroup ct.cgroup) (envKeyCheck ct))))

/-- The `AppError` produced by an out-of-bounds identity. -/
def identityBoundsError (identity : Int) : AppError :=
  ⟨"validate configuration", .errIdentityBounds,
    "identity " ++ toString identity ++ " out of range"⟩

/-- `Config.Validate`: checks a configuration, starting with nil receiver and
identity bounds, and returns the first failure as an `AppError`. -/
def Config.Validate (config : Option Config) : Option AppError :=
  match config with
  | none => some ⟨"validate configuration", .errConfigNull, "invalid configuration"⟩
  | some c =>
    if c.identity < IdentityStart ∨ c.identity > IdentityEnd then
      some (identityBoundsError c.identity)
    else
      validatePostBounds c

/-! ## Outcome planner (`internal/outcome/outcome.go`, `outcomeStateSys.toSystem`) -/

/-- The fixed set of outcome op kinds named by the planner. -/
inductive OutcomeOpKind where
  | params | cgroup | runtime | tmpdir | account
  | wayland | x11 | pulse | dbus | filesystem
deriving DecidableEq, Repr

/-- The fixed op array of `outcomeStateSys.toSystem`, in source order. -/
def outcomeOpOrder : List OutcomeOpKind :=
  [.params, .cgroup, .runtime, .tmpdir, .account,
   .wayland, .x11, .pulse, .dbus, .filesystem]

/-- The outcome of one `outcomeOp.toSystem` call: success, the internal
`errNotEnabled` sentinel, or any other error. -/
inductive ToSystemResult (ε : Type) where
  | ok
  | notEnabled
  | fail (e : ε)
deriving DecidableEq, Repr

/-- Whether a `toSystem` call succeeded. -/
def ToSystemResult.isOk {ε : Type} : ToSystemResult ε → Bool
  | .ok => true
  | _ => false

/-- Whether a `toSystem` call failed with an error other than the sentinel. -/
def ToSystemResult.isFail {ε : Type} : ToSystemResult ε → Bool
  | .fail _ => true
  | _ => false

/-- The transmission loop of `outcomeStateSys.toSystem`: ops are visited in
the fixed order; a sentinel `errNotEnabled` outcome omits the op from the
accumulated `Shim.Ops` list, any other error aborts, and successful ops are
appended in visit order. -/
def toSystemLoop {ε : Type} (res : OutcomeOpKind → ToSystemResult ε) :
    List OutcomeOpKind → List OutcomeOpKind → Except ε (List OutcomeOpKind)
  | [], acc => .ok acc.reverse
  | op :: rest, acc =>
    match res op with
    | .ok => toSystemLoop res rest (op :: acc)
    | .notEnabled => toSystemLoop res rest acc
    | .fail e => .error e

/-- `outcomeStateSys.toSystem` over the fixed op order, with each op's own
`toSystem` outcome abstracted by `res`. -/
def outcomeToSystem {ε : Type} (res : OutcomeOpKind → ToSystemResult ε) :
    Except ε (List OutcomeOpKind) :=
  toSystemLoop res outcomeOpOrder []

/-- `spCgroupOp.toSystem` (`internal/outcome/spcgroup.go`): returns the
`errNotEnabled` sentinel when the container has no cgroup section, propagates
slice resolution errors, and otherwise registers the cgroup op. -/
def spCgroupOpToSystem (cgroup : Option CgroupConfig) : ToSystemResult HErr :=
  match cgroup with
  | none => .notEnabled
  | some c =>
    match CgroupConfig.SlicePath (some c) with
    | .error e => .fail e
    | .ok _ => .ok

/-! ## Helper lemmas on path cleaning -/

/-- Cleaning preserves absoluteness: `path.Clean` of a rooted path is rooted. -/
theorem pathIsAbs_pathClean (p : String) (h : pathIsAbs p = true) :
    pathIsAbs (pathClean p) = true := by
  have hne : ¬ p = "" := by
    intro he
    rw [he] at h
    exact absurd h (by decide)
  unfold pathClean
  rw [if_neg hne]
  simp only [h]
  cases cleanStack true [] (splitSlash p.data) with
  | nil => decide
  | cons q qs => rfl

/-- The slice base resolved by `CgroupConfig.slicePath` before cleaning:
an empty slice defaults, a relative slice is joined under the root. -/
def resolvedSliceBase (slice : String) : String :=
  let base := if slice = "" then defaultCgroupSlice else slice
  if ¬ pathIsAbs base then pathJoin CgroupRoot base else base

/-- The resolved slice base is always rooted. -/
theorem pathIsAbs_resolvedSliceBase (slice : String) :
    pathIsAbs (resolvedSliceBase slice) = true := by
  unfold resolvedSliceBase
  by_cases he : slice = ""
  · subst he
    decide
  · simp only [if_neg he]
    by_cases ha : pathIsAbs slice = true
    · simp [ha]
    · have ha' : pathIsAbs slice = false := by
        cases hx : pathIsAbs slice
        · rfl
        · exact absurd hx ha
      simp only [ha', Bool.not_false, if_pos]
      show pathIsAbs (pathJoin CgroupRoot slice) = true
      unfold pathJoin
      have hr : ¬ (CgroupRoot = "" ∧ slice = "") := by
        intro hc
        exact absurd hc.1 (by decide)
      rw [if_neg hr, if_neg (by decide : ¬ CgroupRoot = ""), if_neg he]
      apply pathIsAbs_pathClean
      have : (CgroupRoot ++ "/" ++ slice).data = '/' :: ("sys/fs/cgroup/".data ++ slice.data) := by
        simp [String.data_append]
        rfl
      unfold pathIsAbs
      rw [this]
      rfl

/-- `slicePath` computes `checkNewAbs` of the cleaned resolved base. -/
theorem slicePath_eq_checkNewAbs (c : CgroupConfig) :
    c.slicePath = (match checkNewAbs (pathClean (resolvedSliceBase c.slice)) with
      | some abs => .ok abs
      | none => .error .errCgroupPath) := rfl

/-! ## Claim C10 -/

/-- Claim C10: `CgroupConfig.Validate` returns success on a nil receiver and
container validation treats a missing cgroup section as valid, while the nil
cgroup receiver `EINVAL` is reported only by `SlicePath` and `InstancePath`. -/
theorem cgroup_nil_validate_semantics :
    CgroupConfig.Validate none = none ∧
    ContainerConfig.validateCgroup none = none ∧
    CgroupConfig.SlicePath none = Except.error HErr.einval ∧
    (∀ (s : String) (id : Option InstanceID),
      CgroupConfig.InstancePath none s id = Except.error HErr.einval) := by
  refine ⟨rfl, rfl, rfl, fun s id => ?_⟩
  cases id <;> rfl

/-! ## Claim C6 -/

/-- Claim C6: the shim wait delay computed during outcome planning from the
configured `ContainerConfig.WaitDelay` is 0 for negative values, the 5 s
default for 0, the 30 s maximum for values above it, and the value itself
otherwise. -/
theorem shimWaitDelay_normalisation (d : Int) :
    (d < 0 → shimWaitDelay d = 0) ∧
    (d = 0 → shimWaitDelay d = WaitDelayDefault) ∧
    (d > WaitDelayMax → shimWaitDelay d = WaitDelayMax) ∧
    (0 < d → d ≤ WaitDelayMax → shimWaitDelay d = d) := by
  refine ⟨fun h => ?_, fun h => ?_, fun h => ?_, fun h1 h2 => ?_⟩ <;>
    simp only [shimWaitDelay, WaitDelayDefault, WaitDelayMax] at * <;>
    split_ifs <;> omega

/-- Witness for C6 at the concrete delays -1, 0, 30 s + 1 ns, and 7 ns. -/
theorem shimWaitDelay_normalisation_witness :
    shimWaitDelay (-1) = 0 ∧ shimWaitDelay 0 = 5000000000 ∧
    shimWaitDelay 30000000001 = 30000000000 ∧ shimWaitDelay 7 = 7 := by
  refine ⟨(shimWaitDelay_normalisation (-1)).1 (by decide),
    (shimWaitDelay_normalisation 0).2.1 rfl, ?_,
    (shimWaitDelay_normalisation 7).2.2.2 (by decide) (by decide)⟩
  have h := (shimWaitDelay_normalisation 30000000001).2.2.1 (by decide)
  simpa [WaitDelayMax] using h

/-! ## Claim C3 -/

/-- Claim C3 counterexample: the slice `"/sys/fs/cgroup/../../etc"` does not
yield `ErrCgroupPath`; cleaning resolves it to `/sys/etc` and both `slicePath`
and `Validate` accept it. -/
theorem slicePath_dotdot_counterexample :
    (CgroupConfig.mk "/sys/fs/cgroup/../../etc" 0 0 0).slicePath = Except.ok "/sys/etc" ∧
    CgroupConfig.SlicePath (some (CgroupConfig.mk "/sys/fs/cgroup/../../etc" 0 0 0)) =
      Except.ok "/sys/etc" ∧
    CgroupConfig.Validate (some (CgroupConfig.mk "/sys/fs/cgroup/../../etc" 0 0 0)) = none ∧
    ¬ (CgroupConfig.mk "/sys/fs/cgroup/../../etc" 0 0 0).slicePath =
      Except.error HErr.errCgroupPath := by
  decide

/-- Claim C3 (amended): an empty slice defaults to
`/sys/fs/cgroup/hakurei.slice`, a relative slice is joined under
`/sys/fs/cgroup` (so `"hakurei.slice"` resolves to
`/sys/fs/cgroup/hakurei.slice`), and `slicePath` rejects with `ErrCgroupPath`
exactly when the cleaned resolved slice contains a NUL byte — never merely
because `..` segments escape the cgroup root, since cleaning resolves them. -/
theorem slicePath_resolution :
    (∀ cpu mem pids, (CgroupConfig.mk "" cpu mem pids).slicePath =
      Except.ok defaultCgroupSlice) ∧
    (∀ cpu mem pids, (CgroupConfig.mk "hakurei.slice" cpu mem pids).slicePath =
      Except.ok "/sys/fs/cgroup/hakurei.slice") ∧
    (∀ c : CgroupConfig, c.slicePath = Except.error HErr.errCgroupPath ↔
      '\x00' ∈ (pathClean (resolvedSliceBase c.slice)).data) ∧
    (∀ c : CgroupConfig, ¬ '\x00' ∈ (pathClean (resolvedSliceBase c.slice)).data →
      c.slicePath = Except.ok (pathClean (resolvedSliceBase c.slice))) := by
  refine ⟨fun cpu mem pids => rfl, fun cpu mem pids => rfl, fun c => ?_, fun c hn => ?_⟩
  · rw [slicePath_eq_checkNewAbs]
    have habs : pathIsAbs (pathClean (resolvedSliceBase c.slice)) = true :=
      pathIsAbs_pathClean _ (pathIsAbs_resolvedSliceBase c.slice)
    unfold checkNewAbs
    by_cases hn : '\x00' ∈ (pathClean (resolvedSliceBase c.slice)).data
    · rw [if_neg (by simp [hn])]
      simp [hn]
    · rw [if_pos ⟨habs, hn⟩]
      simp [hn]
  · rw [slicePath_eq_checkNewAbs]
    have habs : pathIsAbs (pathClean (resolvedSliceBase c.slice)) = true :=
      pathIsAbs_pathClean _ (pathIsAbs_resolvedSliceBase c.slice)
    unfold checkNewAbs
    rw [if_pos ⟨habs, hn⟩]

/-- Witness for C3's amended characterisation: a NUL byte in the slice is
rejected with `ErrCgroupPath`. -/
theorem slicePath_resolution_witness :
    (CgroupConfig.mk "/a\x00b" 0 0 0).slicePath = Except.error HErr.errCgroupPath :=
  (slicePath_resolution.2.2.1 (CgroupConfig.mk "/a\x00b" 0 0 0)).mpr (by decide)


/-! ## Claim C8 -/

/-- A `slicePath` failure is always `ErrCgroupPath`. -/
theorem slicePath_error_val (c : CgroupConfig) (e : HErr) (h : c.slicePath = .error e) :
    e = .errCgroupPath := by
  rw [slicePath_eq_checkNewAbs] at h
  cases hck : checkNewAbs (pathClean (resolvedSliceBase c.slice)) with
  | some a =>
    rw [hck] at h
    have h' : Except.ok (ε := HErr) a = Except.error e := h
    exact Except.noConfusion h'
  | none =>
    rw [hck] at h
    have h' : Except.error (α := String) HErr.errCgroupPath = Except.error e := h
    injection h' with h2
    exact h2.symm

/-- `CgroupConfig.Validate` on a non-nil receiver, unfolded. -/
theorem CgroupConfig.Validate_some_eq (c : CgroupConfig) :
    CgroupConfig.Validate (some c) =
      (if c.limitPids < 0 then
        some ⟨"validate configuration", HErr.einval, "cgroup limit pids cannot be negative"⟩
      else
        match c.slicePath with
        | .error e => some ⟨"validate configuration", e, "invalid cgroup slice"⟩
        | .ok _ => none) := rfl

/-- Cgroup section validation never reports an identity bounds error. -/
theorem validateCgroup_not_bounds (cg : Option CgroupConfig) (e : AppError)
    (h : ContainerConfig.validateCgroup cg = some e) : e.err ≠ HErr.errIdentityBounds := by
  cases cg with
  | none => exact Option.noConfusion h
  | some c =>
    have hcv : ContainerConfig.validateCgroup (some c) = CgroupConfig.Validate (some c) := rfl
    rw [hcv, CgroupConfig.Validate_some_eq] at h
    by_cases hp : c.limitPids < 0
    · rw [if_pos hp] at h
      injection h with h2
      subst h2
      decide
    · rw [if_neg hp] at h
      cases hsp : c.slicePath with
      | error e2 =>
        rw [hsp] at h
        have h' : some (⟨"validate configuration", e2, "invalid cgroup slice"⟩ : AppError) =
            some e := h
        injection h' with h2
        subst h2
        have h3 := slicePath_error_val c e2 hsp
        show (⟨"validate configuration", e2, "invalid cgroup slice"⟩ : AppError).err ≠
          HErr.errIdentityBounds
        rw [show (⟨"validate configuration", e2, "invalid cgroup slice"⟩ : AppError).err = e2
          from rfl, h3]
        decide
      | ok s =>
        rw [hsp] at h
        exact Option.noConfusion (show (none : Option AppError) = some e from h)

/-- Early-return sequencing resolves to the first error present. -/
theorem firstErr_some (a b : Option AppError) (e : AppError) (h : firstErr a b = some e) :
    a = some e ∨ (a = none ∧ b = some e) := by
  cases a with
  | some x => exact Or.inl h
  | none => exact Or.inr ⟨rfl, h⟩

/-- Required-path checks only report `ErrConfigNull`. -/
theorem requiredPathChecks_err (ct : ContainerConfig) (e : AppError)
    (h : requiredPathChecks ct = some e) : e.err = HErr.errConfigNull := by
  unfold requiredPathChecks at h
  split_ifs at h
  · injection h with h2
    subst h2
    rfl
  · injection h with h2
    subst h2
    rfl
  · injection h with h2
    subst h2
    rfl

/-- The environment key scan only reports `ErrEnviron`. -/
theorem envKeyCheck_err (ct : ContainerConfig) (e : AppError)
    (h : envKeyCheck ct = some e) : e.err = HErr.errEnviron := by
  unfold envKeyCheck at h
  cases hk : ct.envKeys.find? invalidEnvKey with
  | some key =>
    rw [hk] at h
    have h' : some (⟨"validate configuration", HErr.errEnviron,
        "invalid environment variable " ++ goQuote key⟩ : AppError) = some e := h
    injection h' with h2
    subst h2
    rfl
  | none =>
    rw [hk] at h
    exact Option.noConfusion (show (none : Option AppError) = some e from h)

/-- The validation steps after the bounds check never report an identity
bounds error, provided the bus interface checks do not. -/
theorem validatePostBounds_not_bounds (c : Config)
    (h1 : ∀ e, c.sessionBusCheck = some e → e.err ≠ HErr.errIdentityBounds)
    (h2 : ∀ e, c.systemBusCheck = some e → e.err ≠ HErr.errIdentityBounds)
    (e : AppError) (he : validatePostBounds c = some e) :
    e.err ≠ HErr.errIdentityBounds := by
  unfold validatePostBounds at he
  rcases firstErr_some _ _ _ he with hs | ⟨_, he2⟩
  · exact h1 e hs
  · rcases firstErr_some _ _ _ he2 with hy | ⟨_, he3⟩
    · exact h2 e hy
    · cases hc : c.container with
      | none =>
        rw [hc] at he3
        have h' : some (⟨"validate configuration", HErr.errConfigNull,
            "configuration missing container state"⟩ : AppError) = some e := he3
        injection h' with h4
        subst h4
        decide
      | some ct =>
        rw [hc] at he3
        have h' : firstErr (requiredPathChecks ct)
            (firstErr (ContainerConfig.validateCgroup ct.cgroup) (envKeyCheck ct)) =
            some e := he3
        rcases firstErr_some _ _ _ h' with hp | ⟨_, hq⟩
        · rw [requiredPathChecks_err ct e hp]
          decide
        · rcases firstErr_some _ _ _ hq with hcg | ⟨_, hk⟩
          · exact validateCgroup_not_bounds ct.cgroup e hcg
          · rw [envKeyCheck_err ct e hk]
            decide

/-- `Config.Validate` on a non-nil configuration is the bounds check followed
by the remaining checks. -/
theorem Config.Validate_some (c : Config) :
    Config.Validate (some c) =
      if c.identity < IdentityStart ∨ c.identity > IdentityEnd then
        some (identityBoundsError c.identity)
      else validatePostBounds c := rfl

/-- Claim C8: `Config.Validate` accepts the identity exactly in `[1, 9999]`:
out-of-bounds identities (such as 0 and 10000) fail with `ErrIdentityBounds`
wrapped in an `AppError` with step `"validate configuration"`, while 1 and
9999 pass the bounds check and proceed to the remaining checks. -/
theorem configValidate_identity_bounds (cfg : Config)
    (h1 : ∀ e, cfg.sessionBusCheck = some e → e.err ≠ HErr.errIdentityBounds)
    (h2 : ∀ e, cfg.systemBusCheck = some e → e.err ≠ HErr.errIdentityBounds) :
    (∀ i : Int, (i < IdentityStart ∨ i > IdentityEnd) ↔
      (∃ m, Config.Validate (some { cfg with identity := i }) =
        some ⟨"validate configuration", HErr.errIdentityBounds, m⟩)) ∧
    Config.Validate (some { cfg with identity := 0 }) = some (identityBoundsError 0) ∧
    Config.Validate (some { cfg with identity := 10000 }) = some (identityBoundsError 10000) ∧
    Config.Validate (some { cfg with identity := 1 }) =
      validatePostBounds { cfg with identity := 1 } ∧
    Config.Validate (some { cfg with identity := 9999 }) =
      validatePostBounds { cfg with identity := 9999 } := by
  refine ⟨fun i => ?_, ?_, ?_, ?_, ?_⟩
  · rw [Config.Validate_some,
      show ({ cfg with identity := i } : Config).identity = i from rfl]
    constructor
    · intro hb
      rw [if_pos hb]
      exact ⟨"identity " ++ toString i ++ " out of range", rfl⟩
    · intro hex
      obtain ⟨m, hm⟩ := hex
      by_contra hb
      rw [if_neg hb] at hm
      exact absurd rfl
        (validatePostBounds_not_bounds { cfg with identity := i } h1 h2 _ hm)
  · rw [Config.Validate_some,
      show ({ cfg with identity := (0 : Int) } : Config).identity = 0 from rfl,
      if_pos (by decide)]
  · rw [Config.Validate_some,
      show ({ cfg with identity := (10000 : Int) } : Config).identity = 10000 from rfl,
      if_pos (by decide)]
  · rw [Config.Validate_some,
      show ({ cfg with identity := (1 : Int) } : Config).identity = 1 from rfl,
      if_neg (by decide)]
  · rw [Config.Validate_some,
      show ({ cfg with identity := (9999 : Int) } : Config).identity = 9999 from rfl,
      if_neg (by decide)]

/-- Witness for C8 at a concrete configuration: identities 0 and 10000 are
rejected with `ErrIdentityBounds`, 1 and 9999 pass the bounds check. -/
theorem configValidate_identity_bounds_witness :
    Config.Validate (some (Config.mk 0 none none none)) = some (identityBoundsError 0) ∧
    Config.Validate (some (Config.mk 10000 none none none)) =
      some (identityBoundsError 10000) ∧
    Config.Validate (some (Config.mk 1 none none none)) =
      validatePostBounds (Config.mk 1 none none none) ∧
    Config.Validate (some (Config.mk 9999 none none none)) =
      validatePostBounds (Config.mk 9999 none none none) := by
  have h := configValidate_identity_bounds (Config.mk 0 none none none)
    (fun e he => by exact Option.noConfusion he)
    (fun e he => by exact Option.noConfusion he)
  exact ⟨h.2.1, h.2.2.1, h.2.2.2.1, h.2.2.2.2⟩

/-! ## Claim C2 -/

/-- Every `ensureLoop` failure is the `errExist` final-component error. -/
theorem ensureLoop_error_shape (parts : List String) :
    ∀ (fs : FS) (created : List String) (cur : String) (e : CgOpError),
      ensureLoop fs created cur parts = .error e →
      ∃ d, e = ⟨"cgroup", .errExist, some ("cgroup " ++ goQuote d ++ " already exists"), false⟩ := by
  induction parts with
  | nil =>
    intro fs created cur e h
    exact Except.noConfusion (show Except.ok (ε := CgOpError) (fs, created.reverse) =
      Except.error e from h)
  | cons part rest ih =>
    intro fs created cur e h
    rw [ensureLoop] at h
    by_cases hpe : part = ""
    · rw [if_pos hpe] at h
      exact ih fs created cur e h
    · rw [if_neg hpe] at h
      by_cases hmem : pathJoin cur part ∈ fs.dirs
      · rw [if_pos hmem] at h
        by_cases hlast : rest = []
        · rw [if_pos hlast] at h
          have h' : Except.error (α := FS × List String)
              (⟨"cgroup", HErr.errExist,
                some ("cgroup " ++ goQuote (pathJoin cur part) ++ " already exists"),
                false⟩ : CgOpError) = Except.error e := h
          injection h' with h2
          exact ⟨pathJoin cur part, h2.symm⟩
        · rw [if_neg hlast] at h
          exact ih fs created (pathJoin cur part) e h
      · rw [if_neg hmem] at h
        exact ih ⟨pathJoin cur part :: fs.dirs, fs.files⟩ (pathJoin cur part :: created)
          (pathJoin cur part) e h

/-- The escape refusal value produced by `cgroupOp.apply`. -/
def escapeRefusal : CgOpError :=
  ⟨"cgroup", .einval, some "cgroup path escapes slice", false⟩

/-- Claim C2 counterexample: with base `/tmp/x` and target `/tmp/xy`, the
target does not lie beneath the base, yet `apply` passes the string prefix
check and proceeds to create `/tmp/x/y` rather than refusing. -/
theorem cgroupOp_apply_descendant_counterexample :
    isDescendantOf "/tmp/xy" "/tmp/x" = false ∧
    cgroupOp.apply (cgroupOp.mk "/tmp/x" "/tmp/xy" (CgroupLimits.mk 0 0 0))
        (FS.mk ["/tmp/x", "/tmp"] []) =
      .ok (FS.mk ["/tmp/x/y", "/tmp/x", "/tmp"] [], ["/tmp/x/y"], []) ∧
    ¬ cgroupOp.apply (cgroupOp.mk "/tmp/x" "/tmp/xy" (CgroupLimits.mk 0 0 0))
        (FS.mk ["/tmp/x", "/tmp"] []) = .error escapeRefusal := by
  refine ⟨by decide, by decide, by decide⟩

/-- Claim C2 (amended): `cgroupOp.apply` refuses with `EINVAL` and the message
"cgroup path escapes slice" exactly when the target string does not have the
base string as a prefix; passing the check therefore guarantees only a string
prefix relation, not that the target is a path descendant of the base. -/
theorem cgroupOp_apply_escape_iff (c : cgroupOp) (fs : FS) :
    cgroupOp.apply c fs = .error escapeRefusal ↔ ¬ strHasPfx c.base c.path := by
  unfold cgroupOp.apply
  by_cases hpfx : strHasPfx c.base c.path
  · rw [if_neg (by simpa using hpfx)]
    by_cases hstat : c.base ∈ fs.dirs
    · rw [if_neg (by simpa using hstat)]
      constructor
      · intro h
        cases hep : c.ensurePath fs with
        | error e =>
          rw [hep] at h
          have h' : Except.error (α := FS × List String × List String) e =
              Except.error escapeRefusal := h
          injection h' with h2
          obtain ⟨d, hd⟩ := ensureLoop_error_shape _ _ _ _ _ (by
            have := hep
            unfold cgroupOp.ensurePath at this
            by_cases hrel : trimPfx (trimPfx c.path c.base) "/" = ""
            · rw [if_pos hrel] at this
              have h3 : Except.error (α := FS × List String)
                  (⟨"cgroup", HErr.einval, some "cgroup path cannot equal slice",
                    false⟩ : CgOpError) = Except.error e := this
              injection h3 with h4
              rw [h2] at h4
              exact absurd h4.symm (by decide)
            · rw [if_neg hrel] at this
              exact this)
          rw [h2] at hd
          have hne : escapeRefusal.err = HErr.errExist := congrArg CgOpError.err hd
          exact absurd hne (by decide)
        | ok r =>
          rw [hep] at h
          have h' : Except.ok (ε := CgOpError)
              ((c.applyLimits r.1).1, r.2, (c.applyLimits r.1).2) =
              Except.error escapeRefusal := h
          exact Except.noConfusion h'
      · intro h
        exact absurd hpfx h
    · rw [if_pos (by simpa using hstat)]
      constructor
      · intro h
        have h' : Except.error (α := FS × List String × List String)
            (⟨"cgroup", HErr.errNotExist, none, false⟩ : CgOpError) =
            Except.error escapeRefusal := h
        injection h' with h2
        exact absurd h2 (by decide)
      · intro h
        exact absurd hpfx h
  · rw [if_pos (by simpa using hpfx)]
    constructor
    · intro _
      exact hpfx
    · intro _
      rfl

/-- Witness for C2's amended characterisation: a target outside the base's
string prefix is refused with the escape error. -/
theorem cgroupOp_apply_escape_iff_witness :
    cgroupOp.apply (cgroupOp.mk "/a" "/b" (CgroupLimits.mk 0 0 0)) (FS.mk [] []) =
      .error escapeRefusal :=
  (cgroupOp_apply_escape_iff (cgroupOp.mk "/a" "/b" (CgroupLimits.mk 0 0 0))
    (FS.mk [] [])).mpr (by decide)

/-! ## Claim C7 -/

/-- A failure-free transmission loop keeps the successful ops in visit order,
omitting sentinel ops. -/
theorem toSystemLoop_no_fail {ε : Type} (res : OutcomeOpKind → ToSystemResult ε) :
    ∀ (l : List OutcomeOpKind) (acc : List OutcomeOpKind),
      (∀ op ∈ l, (res op).isFail = false) →
      toSystemLoop res l acc = .ok (acc.reverse ++ l.filter (fun op => (res op).isOk)) := by
  intro l
  induction l with
  | nil => intro acc _; simp [toSystemLoop]
  | cons op rest ih =>
    intro acc hnf
    rw [toSystemLoop]
    cases hr : res op with
    | ok =>
      rw [ih (op :: acc) (fun p hp => hnf p (List.mem_cons_of_mem op hp))]
      simp [List.filter_cons, hr, ToSystemResult.isOk]
    | notEnabled =>
      rw [ih acc (fun p hp => hnf p (List.mem_cons_of_mem op hp))]
      simp [List.filter_cons, hr, ToSystemResult.isOk]
    | fail e =>
      have := hnf op (List.mem_cons_self op rest)
      rw [hr] at this
      exact absurd this (by simp [ToSystemResult.isFail])

/-- The first non-sentinel failure aborts the transmission loop with its
error. -/
theorem toSystemLoop_fail {ε : Type} (res : OutcomeOpKind → ToSystemResult ε)
    (op : OutcomeOpKind) (e : ε) (post : List OutcomeOpKind) (hop : res op = .fail e) :
    ∀ (pre : List OutcomeOpKind) (acc : List OutcomeOpKind),
      (∀ p ∈ pre, (res p).isFail = false) →
      toSystemLoop res (pre ++ op :: post) acc = .error e := by
  intro pre
  induction pre with
  | nil =>
    intro acc _
    rw [List.nil_append, toSystemLoop, hop]
  | cons q rest ih =>
    intro acc hnf
    rw [List.cons_append, toSystemLoop]
    cases hq : res q with
    | ok => exact ih (q :: acc) (fun p hp => hnf p (List.mem_cons_of_mem q hp))
    | notEnabled => exact ih acc (fun p hp => hnf p (List.mem_cons_of_mem q hp))
    | fail e2 =>
      have := hnf q (List.mem_cons_self q rest)
      rw [hq] at this
      exact absurd this (by simp [ToSystemResult.isFail])

/-- Claim C7: planning visits the outcome ops' `toSystem` in the fixed order
params, cgroup, runtime, tmpdir, account, wayland, x11, pulse, dbus,
filesystem; an op reporting the not-enabled sentinel (the cgroup op exactly
when `Container.Cgroup` is nil) is omitted from the transmitted `Shim.Ops`
list without aborting, any other error aborts planning with that error, and
the transmitted list is the order-preserving filter of the successful ops. -/
theorem outcome_toSystem_fixed_order {ε : Type} :
    outcomeOpOrder = [OutcomeOpKind.params, OutcomeOpKind.cgroup, OutcomeOpKind.runtime,
      OutcomeOpKind.tmpdir, OutcomeOpKind.account, OutcomeOpKind.wayland, OutcomeOpKind.x11,
      OutcomeOpKind.pulse, OutcomeOpKind.dbus, OutcomeOpKind.filesystem] ∧
    (∀ res : OutcomeOpKind → ToSystemResult ε,
      (∀ op, (res op).isFail = false) →
      outcomeToSystem res = .ok (outcomeOpOrder.filter (fun op => (res op).isOk))) ∧
    (∀ (res : OutcomeOpKind → ToSystemResult ε) (pre : List OutcomeOpKind)
        (op : OutcomeOpKind) (post : List OutcomeOpKind) (e : ε),
      outcomeOpOrder = pre ++ op :: post →
      (∀ p ∈ pre, (res p).isFail = false) →
      res op = .fail e →
      outcomeToSystem res = .error e) ∧
    (∀ cgroup : Option CgroupConfig,
      spCgroupOpToSystem cgroup = ToSystemResult.notEnabled ↔ cgroup = none) := by
  refine ⟨rfl, fun res hnf => ?_, fun res pre op post e hsplit hnf hop => ?_, fun cgroup => ?_⟩
  · unfold outcomeToSystem
    rw [toSystemLoop_no_fail res outcomeOpOrder [] (fun op _ => hnf op)]
    rfl
  · unfold outcomeToSystem
    rw [hsplit]
    exact toSystemLoop_fail res op e post hop pre [] hnf
  · cases cgroup with
    | none => simp [spCgroupOpToSystem]
    | some c =>
      simp only [spCgroupOpToSystem, Option.some.injEq]
      constructor
      · intro h
        cases hsp : CgroupConfig.SlicePath (some c) with
        | error e2 =>
          rw [hsp] at h
          exact ToSystemResult.noConfusion h
        | ok s =>
          rw [hsp] at h
          exact ToSystemResult.noConfusion h
      · intro h
        exact Option.noConfusion h

/-- Witness for C7: with every op enabled except the cgroup op (nil cgroup
section), the transmitted list is the fixed order minus the cgroup op. -/
theorem outcome_toSystem_fixed_order_witness :
    outcomeToSystem (fun op => match op with
      | OutcomeOpKind.cgroup => ToSystemResult.notEnabled
      | _ => (ToSystemResult.ok : ToSystemResult HErr)) =
      .ok [OutcomeOpKind.params, OutcomeOpKind.runtime, OutcomeOpKind.tmpdir,
        OutcomeOpKind.account, OutcomeOpKind.wayland, OutcomeOpKind.x11,
        OutcomeOpKind.pulse, OutcomeOpKind.dbus, OutcomeOpKind.filesystem] := by
  have h := (outcome_toSystem_fixed_order (ε := HErr)).2.1
    (fun op => match op with
      | OutcomeOpKind.cgroup => ToSystemResult.notEnabled
      | _ => ToSystemResult.ok)
    (fun op => by cases op <;> rfl)
  rw [h]
  rfl

/-! ## Claim C9 -/

/-- String concatenation is associative. -/
theorem strAppend_assoc (a b c : String) : a ++ b ++ c = a ++ (b ++ c) := by
  apply String.ext
  simp [String.data_append]

/-- The hex encoding of a byte list has two characters per byte. -/
theorem flatten_byteHex_length (bs : List (Fin 256)) :
    ((bs.map byteHex).flatten).length = 2 * bs.length := by
  induction bs with
  | nil => rfl
  | cons b rest ih =>
    simp only [List.map_cons, List.flatten_cons, List.length_append, ih, List.length_cons]
    simp [byteHex]
    omega

/-- The textual form of an instance identifier has 32 characters. -/
theorem InstanceID.text_length (id : InstanceID) : id.text.length = 32 := by
  show ((id.bytes.map byteHex).flatten).length = 32
  rw [flatten_byteHex_length, id.len16]

/-- Both characters of a byte's hex encoding are lowercase hex digits. -/
theorem byteHex_mem_hexDigits (b : Fin 256) : ∀ ch ∈ byteHex b, ch ∈ hexDigits := by
  intro ch hch
  have hlt : b.val < 256 := b.isLt
  have h16a : b.val / 16 < 16 := by omega
  have h16b : b.val % 16 < 16 := by omega
  unfold byteHex at hch
  simp only [List.mem_cons, List.mem_singleton, List.not_mem_nil, or_false] at hch
  rcases hch with h | h <;> subst h
  · rw [List.getD_eq_getElem hexDigits '0'
      (show b.val / 16 < hexDigits.length by
        rw [show hexDigits.length = 16 from rfl]
        omega)]
    exact List.getElem_mem _
  · rw [List.getD_eq_getElem hexDigits '0'
      (show b.val % 16 < hexDigits.length by
        rw [show hexDigits.length = 16 from rfl]
        omega)]
    exact List.getElem_mem _

/-- Every character of the identifier text is a lowercase hex digit. -/
theorem InstanceID.text_chars_hex (id : InstanceID) :
    ∀ ch ∈ id.text.data, ch ∈ hexDigits := by
  intro ch hch
  have h2 : ch ∈ (id.bytes.map byteHex).flatten := hch
  rw [List.mem_flatten] at h2
  obtain ⟨l, hl, hch2⟩ := h2
  rw [List.mem_map] at hl
  obtain ⟨b, _, rfl⟩ := hl
  exact byteHex_mem_hexDigits b ch hch2

/-- Claim C9: with a valid slice, `InstancePath` returns the path
`<slice>/hakurei-<identity>/<id-hex>` — it begins with
`<slice>/hakurei-<identity>/` and ends with the 32-character lowercase hex
form of the identifier — and returns `EINVAL` for a nil receiver or nil id. -/
theorem instancePath_shape (c : CgroupConfig) (slice : String)
    (hs : c.slicePath = Except.ok slice) (s : String) (id : InstanceID) :
    CgroupConfig.InstancePath (some c) s (some id) =
      Except.ok ((slice ++ "/hakurei-" ++ s ++ "/") ++ id.text) ∧
    id.text.length = 32 ∧
    (∀ ch ∈ id.text.data, ch ∈ hexDigits) ∧
    (∀ (s2 : String) (id2 : Option InstanceID),
      CgroupConfig.InstancePath none s2 id2 = Except.error HErr.einval) ∧
    (∀ s2 : String, CgroupConfig.InstancePath (some c) s2 none = Except.error HErr.einval) := by
  refine ⟨?_, id.text_length, id.text_chars_hex, fun s2 id2 => by cases id2 <;> rfl,
    fun s2 => rfl⟩
  have hroot : c.instanceRoot s = Except.ok (absAppend slice ("hakurei-" ++ s)) := by
    unfold CgroupConfig.instanceRoot
    rw [hs]
  have hmain : CgroupConfig.InstancePath (some c) s (some id) =
      Except.ok (absAppend (absAppend slice ("hakurei-" ++ s)) id.text) := by
    show (match c.instanceRoot s with
      | Except.error e => Except.error e
      | Except.ok root => Except.ok (absAppend root id.text)) =
      Except.ok (absAppend (absAppend slice ("hakurei-" ++ s)) id.text)
    rw [hroot]
  rw [hmain]
  have h1 : (slice ++ "/") ++ ("hakurei-" ++ s) = (slice ++ "/hakurei-") ++ s := by
    rw [← strAppend_assoc, strAppend_assoc slice "/" "hakurei-"]
    rfl
  show Except.ok ((((slice ++ "/") ++ ("hakurei-" ++ s)) ++ "/") ++ id.text) = _
  rw [h1]

/-- Witness for C9: the default slice, identity "42" and the all-zero
identifier produce the expected concrete instance path. -/
theorem instancePath_shape_witness :
    CgroupConfig.InstancePath (some (CgroupConfig.mk "" 0 0 0)) "42"
        (some (InstanceID.mk (List.replicate 16 0) rfl)) =
      Except.ok
        "/sys/fs/cgroup/hakurei.slice/hakurei-42/00000000000000000000000000000000" ∧
    (InstanceID.mk (List.replicate 16 0) rfl).text.length = 32 := by
  have h := instancePath_shape (CgroupConfig.mk "" 0 0 0) "/sys/fs/cgroup/hakurei.slice"
    rfl "42" (InstanceID.mk (List.replicate 16 0) rfl)
  refine ⟨?_, h.2.1⟩
  rw [h.1]
  rfl

/-! ## Claim C5 -/

/-- The per-field marshal entry, applied to an explicit pair. -/
theorem marshalFieldEntry_eq (f : Nat) (k : String) (b : Nat) :
    marshalFieldEntry f (k, b) =
      (if (decide (f &&& b ≠ 0) = true) ∨ k = "map_real_uid"
        then some (k, (decide (f &&& b ≠ 0) : Bool)) else none) := rfl

/-- A name absent from the field list is absent from the emitted object. -/
theorem lookup_marshal_none (f : Nat) (name : String) :
    ∀ l : List (String × Nat), ¬ name ∈ l.map Prod.fst →
      (l.filterMap (marshalFieldEntry f)).lookup name = none := by
  intro l
  induction l with
  | nil => intro _; rfl
  | cons kb rest ih =>
    obtain ⟨k, b⟩ := kb
    intro hnm
    have hk : name ≠ k := by
      intro he
      exact hnm (by rw [List.map_cons, he]; exact List.mem_cons_self _ _)
    have hnm2 : ¬ name ∈ rest.map Prod.fst := by
      intro hm
      exact hnm (by rw [List.map_cons]; exact List.mem_cons_of_mem _ hm)
    rw [List.filterMap_cons, marshalFieldEntry_eq f k b]
    by_cases hc : (decide (f &&& b ≠ 0) = true) ∨ k = "map_real_uid"
    · rw [if_pos hc]
      show List.lookup name ((k, (decide (f &&& b ≠ 0) : Bool)) ::
        List.filterMap (marshalFieldEntry f) rest) = none
      rw [List.lookup_cons, show (name == k) = false from beq_eq_false_iff_ne.mpr hk]
      exact ih hnm2
    · rw [if_neg hc]
      show List.lookup name (List.filterMap (marshalFieldEntry f) rest) = none
      exact ih hnm2

/-- Looking a field's name up in the emitted object yields its boolean when
the field is emitted, and nothing when `omitempty` dropped it. -/
theorem lookup_marshal (f : Nat) (name : String) (bit : Nat) :
    ∀ l : List (String × Nat), (l.map Prod.fst).Nodup → (name, bit) ∈ l →
      (l.filterMap (marshalFieldEntry f)).lookup name =
        (if (decide (f &&& bit ≠ 0) = true) ∨ name = "map_real_uid"
          then some (decide (f &&& bit ≠ 0)) else none) := by
  intro l
  induction l with
  | nil =>
    intro _ hmem
    exact absurd hmem (List.not_mem_nil _)
  | cons kb rest ih =>
    obtain ⟨k, b⟩ := kb
    intro hnd hmem
    rw [List.map_cons, List.nodup_cons] at hnd
    rcases List.mem_cons.mp hmem with heq | hmem2
    · injection heq with h1 h2
      subst h1
      subst h2
      rw [List.filterMap_cons, marshalFieldEntry_eq f name bit]
      by_cases hc : (decide (f &&& bit ≠ 0) = true) ∨ name = "map_real_uid"
      · rw [if_pos hc, if_pos hc]
        show List.lookup name ((name, (decide (f &&& bit ≠ 0) : Bool)) ::
          List.filterMap (marshalFieldEntry f) rest) = some (decide (f &&& bit ≠ 0))
        rw [List.lookup_cons, show (name == name) = true from by simp]
      · rw [if_neg hc, if_neg hc]
        show List.lookup name (List.filterMap (marshalFieldEntry f) rest) = none
        exact lookup_marshal_none f name rest hnd.1
    · have hkne : name ≠ k := by
        intro he
        have hmm : name ∈ rest.map Prod.fst := List.mem_map_of_mem Prod.fst hmem2
        rw [he] at hmm
        exact hnd.1 hmm
      rw [List.filterMap_cons, marshalFieldEntry_eq f k b]
      by_cases hc : (decide (f &&& b ≠ 0) = true) ∨ k = "map_real_uid"
      · rw [if_pos hc]
        show List.lookup name ((k, (decide (f &&& b ≠ 0) : Bool)) ::
          List.filterMap (marshalFieldEntry f) rest) = _
        rw [List.lookup_cons, show (name == k) = false from beq_eq_false_iff_ne.mpr hkne]
        exact ih hnd.2 hmem2
      · rw [if_neg hc]
        show List.lookup name (List.filterMap (marshalFieldEntry f) rest) = _
        exact ih hnd.2 hmem2

/-- The unmarshalled value of any flag field equals its bit test, whether or
not `omitempty` dropped the field from the emitted object. -/
theorem lookupField_marshal (f : Nat) (name : String) (bit : Nat)
    (hmem : (name, bit) ∈ flagJSONFields) :
    lookupField (marshalFlagFields f) name = decide (f &&& bit ≠ 0) := by
  have hnd : (flagJSONFields.map Prod.fst).Nodup := by decide
  unfold lookupField marshalFlagFields
  rw [lookup_marshal f name bit flagJSONFields hnd hmem]
  by_cases hc : (decide (f &&& bit ≠ 0) = true) ∨ name = "map_real_uid"
  · rw [if_pos hc]
  · rw [if_neg hc]
    have hv : decide (f &&& bit ≠ 0) = false := by
      cases hx : decide (f &&& bit ≠ 0)
      · rfl
      · exact absurd (Or.inl hx) hc
    show false = decide (f &&& bit ≠ 0)
    rw [hv]

/-- testBit distributes over the bit-accumulating fold of `unmarshalFlags`. -/
theorem unmarshal_foldl_testBit (fields : List (String × Bool)) :
    ∀ (l : List (String × Nat)) (acc : Nat) (j : Nat),
      Nat.testBit
        (l.foldl (fun acc nb => if lookupField fields nb.1 then acc ||| nb.2 else acc) acc) j =
      (Nat.testBit acc j || l.any fun nb => lookupField fields nb.1 && Nat.testBit nb.2 j) := by
  intro l
  induction l with
  | nil => intro acc j; simp
  | cons kb rest ih =>
    intro acc j
    rw [List.foldl_cons, List.any_cons]
    by_cases h : lookupField fields kb.1 = true
    · rw [if_pos h, ih, h]
      simp [Nat.testBit_or, Bool.or_assoc]
    · have h' : lookupField fields kb.1 = false := by
        cases hx : lookupField fields kb.1
        · rfl
        · exact absurd hx h
      rw [if_neg (by simp [h']), ih, h']
      simp

/-- A conjunction with a power of two is non-zero exactly on the tested bit. -/
theorem decide_and_two_pow (f i : Nat) : decide (f &&& 2 ^ i ≠ 0) = f.testBit i := by
  rw [Nat.and_two_pow]
  cases h : f.testBit i
  · simp
  · have h2 : (2 : Nat) ^ i ≠ 0 := Nat.pos_iff_ne_zero.mp (Nat.two_pow_pos i)
    simp [h2]

/-- Round trip of the flag bits through marshalling and unmarshalling. -/
theorem unmarshal_marshal (f : Nat) (hf : f < 2048) :
    unmarshalFlags (marshalFlagFields f) = f := by
  apply Nat.eq_of_testBit_eq
  intro j
  unfold unmarshalFlags
  rw [unmarshal_foldl_testBit (marshalFlagFields f) flagJSONFields 0 j]
  simp only [flagJSONFields, List.any_cons, List.any_nil]
  rw [lookupField_marshal f "seccomp_compat" FSeccompCompat (by decide),
    lookupField_marshal f "devel" FDevel (by decide),
    lookupField_marshal f "userns" FUserns (by decide),
    lookupField_marshal f "host_net" FHostNet (by decide),
    lookupField_marshal f "host_abstract" FHostAbstract (by decide),
    lookupField_marshal f "tty" FTty (by decide),
    lookupField_marshal f "multiarch" FMultiarch (by decide),
    lookupField_marshal f "map_real_uid" FMapRealUID (by decide),
    lookupField_marshal f "device" FDevice (by decide),
    lookupField_marshal f "share_runtime" FShareRuntime (by decide),
    lookupField_marshal f "share_tmpdir" FShareTmpdir (by decide)]
  simp only [show FSeccompCompat = 2 ^ 1 from rfl, show FDevel = 2 ^ 2 from rfl,
    show FUserns = 2 ^ 3 from rfl, show FHostNet = 2 ^ 4 from rfl,
    show FHostAbstract = 2 ^ 5 from rfl, show FTty = 2 ^ 6 from rfl,
    show FMultiarch = 2 ^ 0 from rfl, show FMapRealUID = 2 ^ 7 from rfl,
    show FDevice = 2 ^ 8 from rfl, show FShareRuntime = 2 ^ 9 from rfl,
    show FShareTmpdir = 2 ^ 10 from rfl,
    decide_and_two_pow, Nat.testBit_two_pow, Nat.zero_testBit, Bool.false_or]
  by_cases hj : j < 11
  · interval_cases j <;> simp
  · have hjf : f.testBit j = false := by
      apply Nat.testBit_lt_two_pow
      calc f < 2048 := hf
        _ = 2 ^ 11 := by norm_num
        _ ≤ 2 ^ j := Nat.pow_le_pow_right (by norm_num) (by omega)
    rw [hjf]
    simp only [decide_eq_false (show ¬ (1 = j) by omega),
      decide_eq_false (show ¬ (2 = j) by omega),
      decide_eq_false (show ¬ (3 = j) by omega),
      decide_eq_false (show ¬ (4 = j) by omega),
      decide_eq_false (show ¬ (5 = j) by omega),
      decide_eq_false (show ¬ (6 = j) by omega),
      decide_eq_false (show ¬ (0 = j) by omega),
      decide_eq_false (show ¬ (7 = j) by omega),
      decide_eq_false (show ¬ (8 = j) by omega),
      decide_eq_false (show ¬ (9 = j) by omega),
      decide_eq_false (show ¬ (10 = j) by omega),
      Bool.and_false, Bool.or_false]

/-- Claim C5: for flags within `FAll`, `MarshalJSON` emits the flag bits as
individual boolean fields — `map_real_uid` always, the others only when set —
never emits the `Flags` bitmask itself, and `UnmarshalJSON` of that output
(with absent fields read as false) restores the original flags exactly. -/
theorem containerConfig_flags_json_roundtrip (flags : Nat) (hf : flags ≤ FAll) :
    unmarshalFlags (marshalFlagFields flags) = flags ∧
    (∀ nb ∈ marshalFlagFields flags, nb.1 ∈ flagJSONFields.map Prod.fst) ∧
    ¬ "flags" ∈ (marshalFlagFields flags).map Prod.fst ∧
    (marshalFlagFields flags).lookup "map_real_uid" =
      some (decide (flags &&& FMapRealUID ≠ 0)) ∧
    (∀ name bit, (name, bit) ∈ flagJSONFields → name ≠ "map_real_uid" →
      (marshalFlagFields flags).lookup name =
        (if decide (flags &&& bit ≠ 0) = true
          then some (decide (flags &&& bit ≠ 0)) else none)) := by
  have hnames : ∀ nb ∈ marshalFlagFields flags, nb.1 ∈ flagJSONFields.map Prod.fst := by
    intro nb hnb
    unfold marshalFlagFields at hnb
    rw [List.mem_filterMap] at hnb
    obtain ⟨a, ha, hga⟩ := hnb
    obtain ⟨k, b⟩ := a
    rw [marshalFieldEntry_eq] at hga
    by_cases hc : (decide (flags &&& b ≠ 0) = true) ∨ k = "map_real_uid"
    · rw [if_pos hc] at hga
      injection hga with h2
      rw [← h2]
      exact List.mem_map_of_mem Prod.fst ha
    · rw [if_neg hc] at hga
      exact Option.noConfusion hga
  refine ⟨?_, hnames, ?_, ?_, ?_⟩
  · apply unmarshal_marshal
    have h := hf
    simp only [FAll] at h
    omega
  · intro h
    rw [List.mem_map] at h
    obtain ⟨nb, hnb, hfst⟩ := h
    have h2 := hnames nb hnb
    rw [hfst] at h2
    exact absurd h2 (by decide)
  · show (flagJSONFields.filterMap (marshalFieldEntry flags)).lookup "map_real_uid" = _
    rw [lookup_marshal flags "map_real_uid" FMapRealUID flagJSONFields (by decide) (by decide),
      if_pos (Or.inr rfl)]
  · intro name bit hmem hne
    show (flagJSONFields.filterMap (marshalFieldEntry flags)).lookup name = _
    rw [lookup_marshal flags name bit flagJSONFields (by decide) hmem]
    by_cases hv : decide (flags &&& bit ≠ 0) = true
    · rw [if_pos (Or.inl hv), if_pos hv]
    · rw [if_neg (fun h => h.elim hv hne), if_neg hv]

/-- Witness for C5 at the concrete flag value 1234. -/
theorem containerConfig_flags_json_roundtrip_witness :
    unmarshalFlags (marshalFlagFields 1234) = 1234 :=
  (containerConfig_flags_json_roundtrip 1234 (by decide)).1

/-! ## Claim C4 -/

/-- The registration index of a revert event, paired with whether the revert
was executed rather than skipped. -/
def revertEventKey {ε : Type} : RevertEvent ε → Nat × Bool
  | .executed i _ => (i, true)
  | .skipped i => (i, false)

/-- Running a sequence of reverts unconditionally, threading the state and
collecting the errors in execution order. -/
def runReverts {σ ε : Type} : List (Nat × SysOp σ ε) → σ → σ × List ε
  | [], s => (s, [])
  | (_, op) :: rest, s =>
    let x := op.revert s
    let r := runReverts rest x.1
    (r.1, match x.2 with
      | none => r.2
      | some e => e :: r.2)

/-- One step of the revert loop. -/
theorem revertGo_cons {σ ε : Type} (ec : Option Nat) (i : Nat) (op : SysOp σ ε)
    (rest : List (Nat × SysOp σ ε)) (s : σ) :
    revertGo ec ((i, op) :: rest) s =
      (if ec.isSome && ! criteriaHasType ec op.etype then
        (let r := revertGo ec rest s
         (r.1, RevertEvent.skipped i :: r.2.1, r.2.2))
      else
        (let x := op.revert s
         let r := revertGo ec rest x.1
         match x.2 with
         | none => (r.1, RevertEvent.executed i none :: r.2.1, r.2.2)
         | some e => (r.1, RevertEvent.executed i (some e) :: r.2.1, e :: r.2.2))) := rfl

/-- One step of the unconditional revert run. -/
theorem runReverts_cons {σ ε : Type} (i : Nat) (op : SysOp σ ε)
    (rest : List (Nat × SysOp σ ε)) (s : σ) :
    runReverts ((i, op) :: rest) s =
      ((runReverts rest (op.revert s).1).1,
       match (op.revert s).2 with
       | none => (runReverts rest (op.revert s).1).2
       | some e => e :: (runReverts rest (op.revert s).1).2) := rfl

/-- Characterisation of the revert loop under a non-nil criteria mask. -/
theorem revertGo_criteria {σ ε : Type} (c : Nat) :
    ∀ (items : List (Nat × SysOp σ ε)) (s : σ),
      (revertGo (some c) items s).2.1.map revertEventKey =
        items.map (fun p => (p.1, (decide (c &&& p.2.etype ≠ 0) : Bool))) ∧
      ((revertGo (some c) items s).1, (revertGo (some c) items s).2.2) =
        runReverts (items.filter fun p => decide (c &&& p.2.etype ≠ 0)) s := by
  intro items
  induction items with
  | nil => intro s; exact ⟨rfl, rfl⟩
  | cons p rest ih =>
    obtain ⟨i, op⟩ := p
    intro s
    rw [revertGo_cons]
    by_cases hsk : decide (c &&& op.etype ≠ 0) = true
    · rw [if_neg (by simp [criteriaHasType, hsk])]
      rw [List.filter_cons, if_pos (by simpa using hsk)]
      cases hrev : op.revert s with
      | mk s1 oe =>
        cases oe with
        | none =>
          have h1 := congrArg Prod.fst (ih s1).2
          have h2 := congrArg Prod.snd (ih s1).2
          refine ⟨?_, ?_⟩
          · show (RevertEvent.executed i none :: (revertGo (some c) rest s1).2.1).map
                revertEventKey =
              ((i, op) :: rest).map (fun p => (p.1, (decide (c &&& p.2.etype ≠ 0) : Bool)))
            simp [revertEventKey, (ih s1).1, hsk]
            exact of_decide_eq_true hsk
          · rw [runReverts_cons, hrev]
            show ((revertGo (some c) rest s1).1, (revertGo (some c) rest s1).2.2) =
              ((runReverts (rest.filter fun p => decide (c &&& p.2.etype ≠ 0)) s1).1,
               (runReverts (rest.filter fun p => decide (c &&& p.2.etype ≠ 0)) s1).2)
            rw [h1, h2]
        | some e0 =>
          have h1 := congrArg Prod.fst (ih s1).2
          have h2 := congrArg Prod.snd (ih s1).2
          refine ⟨?_, ?_⟩
          · show (RevertEvent.executed i (some e0) :: (revertGo (some c) rest s1).2.1).map
                revertEventKey =
              ((i, op) :: rest).map (fun p => (p.1, (decide (c &&& p.2.etype ≠ 0) : Bool)))
            simp [revertEventKey, (ih s1).1, hsk]
            exact of_decide_eq_true hsk
          · rw [runReverts_cons, hrev]
            show ((revertGo (some c) rest s1).1, e0 :: (revertGo (some c) rest s1).2.2) =
              ((runReverts (rest.filter fun p => decide (c &&& p.2.etype ≠ 0)) s1).1,
               e0 :: (runReverts (rest.filter fun p => decide (c &&& p.2.etype ≠ 0)) s1).2)
            rw [h1, h2]
    · have hsk' : decide (c &&& op.etype ≠ 0) = false := by
        cases hx : decide (c &&& op.etype ≠ 0)
        · rfl
        · exact absurd hx hsk
      rw [if_pos (by simp [criteriaHasType, of_decide_eq_false hsk'])]
      rw [List.filter_cons, if_neg (by simpa using hsk')]
      refine ⟨?_, ?_⟩
      · show (RevertEvent.skipped i :: (revertGo (some c) rest s).2.1).map revertEventKey =
          ((i, op) :: rest).map (fun p => (p.1, (decide (c &&& p.2.etype ≠ 0) : Bool)))
        simp [revertEventKey, (ih s).1, hsk']
        exact not_not.mp (of_decide_eq_false hsk')
      · show ((revertGo (some c) rest s).1, (revertGo (some c) rest s).2.2) =
          runReverts (rest.filter fun p => decide (c &&& p.2.etype ≠ 0)) s
        exact (ih s).2

/-- Claim C4: for a committed transaction and a non-nil criteria mask,
`Revert(criteria)` walks the committed ops in reverse registration order,
executing the revert of exactly those ops whose type tag intersects the mask
and skipping the others with a verbose log (the `skipped` event), leaving
their effects intact: the final state and the accumulated, joined errors are
those of running only the intersecting reverts, in that reverse order. -/
theorem sysRevert_criteria_filter {σ ε : Type} (ops : List (SysOp σ ε)) (c : Nat) (s : σ) :
    (sysRevert ops (some c) s).2.1.map revertEventKey =
      (enumOps ops).reverse.map (fun p => (p.1, (decide (c &&& p.2.etype ≠ 0) : Bool))) ∧
    ((sysRevert ops (some c) s).1, (sysRevert ops (some c) s).2.2) =
      runReverts ((enumOps ops).reverse.filter fun p => decide (c &&& p.2.etype ≠ 0)) s :=
  revertGo_criteria c (enumOps ops).reverse s

/-! ## Claim C1 -/

/-- Extracts the index of a successful-apply event. -/
def appliedEventIdx {ε : Type} : CommitEvent ε → Option Nat
  | .applied i => some i
  | _ => none

/-- Extracts the index of a rollback-revert event. -/
def revertedEventIdx {ε : Type} : CommitEvent ε → Option Nat
  | .reverted i => some i
  | _ => none

/-- Applies a sequence of ops in order, returning the final state if every
apply succeeds. -/
def applySeq {σ ε : Type} : List (SysOp σ ε) → σ → Option σ
  | [], s => some s
  | op :: rest, s =>
    match op.apply s with
    | .ok s2 => applySeq rest s2
    | .error _ => none

/-- The rollback stack built while applying `pre` starting at index `i`:
most recently applied first. -/
def applyStack {σ ε : Type} (i : Nat) (pre : List (SysOp σ ε)) : List (Nat × SysOp σ ε) :=
  ((List.range' i pre.length).zip pre).reverse

/-- One step of the commit loop. -/
theorem commitAux_cons {σ ε : Type} (i : Nat) (op : SysOp σ ε) (rest : List (SysOp σ ε))
    (applied : List (Nat × SysOp σ ε)) (s : σ) :
    commitAux i (op :: rest) applied s =
      (match op.apply s with
       | .ok s2 =>
         ((commitAux (i + 1) rest ((i, op) :: applied) s2).1,
          (commitAux (i + 1) rest ((i, op) :: applied) s2).2.1,
          CommitEvent.applied i :: (commitAux (i + 1) rest ((i, op) :: applied) s2).2.2)
       | .error e =>
         (some ⟨op.tag, e, false⟩, (rollbackStack applied s).1,
          (rollbackStack applied s).2)) := rfl

/-- One step of the apply sequence. -/
theorem applySeq_cons {σ ε : Type} (op : SysOp σ ε) (rest : List (SysOp σ ε)) (s : σ) :
    applySeq (op :: rest) s =
      (match op.apply s with
       | .ok s2 => applySeq rest s2
       | .error _ => none) := rfl

/-- The commit loop on a pending list whose prefix applies cleanly and whose
next op fails: the prefix is applied in order, the failing op's error is
wrapped with its tag, and the accumulated rollback stack is unwound. -/
theorem commitAux_fail {σ ε : Type} (op : SysOp σ ε) (post : List (SysOp σ ε)) (e : ε) :
    ∀ (pre : List (SysOp σ ε)) (i : Nat) (applied : List (Nat × SysOp σ ε)) (s sk : σ),
      applySeq pre s = some sk → op.apply sk = .error e →
      commitAux i (pre ++ op :: post) applied s =
        (some ⟨op.tag, e, false⟩,
         (rollbackStack (applyStack i pre ++ applied) sk).1,
         (List.range' i pre.length).map CommitEvent.applied ++
           (rollbackStack (applyStack i pre ++ applied) sk).2) := by
  intro pre
  induction pre with
  | nil =>
    intro i applied s sk hpre hfail
    have h : s = sk := Option.some.inj hpre
    subst h
    rw [List.nil_append, commitAux_cons, hfail]
    rfl
  | cons q pre2 ih =>
    intro i applied s sk hpre hfail
    rw [applySeq_cons] at hpre
    cases happ : q.apply s with
    | error e2 =>
      rw [happ] at hpre
      exact Option.noConfusion hpre
    | ok s1 =>
      rw [happ] at hpre
      have hpre2 : applySeq pre2 s1 = some sk := hpre
      rw [List.cons_append, commitAux_cons, happ]
      have hr := ih (i + 1) ((i, q) :: applied) s1 sk hpre2 hfail
      show ((commitAux (i + 1) (pre2 ++ op :: post) ((i, q) :: applied) s1).1,
        (commitAux (i + 1) (pre2 ++ op :: post) ((i, q) :: applied) s1).2.1,
        CommitEvent.applied i ::
          (commitAux (i + 1) (pre2 ++ op :: post) ((i, q) :: applied) s1).2.2) = _
      rw [hr]
      have hstack : applyStack (i + 1) pre2 ++ (i, q) :: applied =
          applyStack i (q :: pre2) ++ applied := by
        show applyStack (i + 1) pre2 ++ (i, q) :: applied =
          ((List.range' i (pre2.length + 1)).zip (q :: pre2)).reverse ++ applied
        rw [List.range'_succ, List.zip_cons_cons, List.reverse_cons, List.append_assoc,
          List.singleton_append]
        rfl
      have hrange : List.range' i (q :: pre2).length =
          i :: List.range' (i + 1) pre2.length := by
        show List.range' i (pre2.length + 1) = i :: List.range' (i + 1) pre2.length
        rw [List.range'_succ]
      rw [hstack, hrange, List.map_cons, List.cons_append]

/-- Rollback produces no apply events. -/
theorem rollbackStack_no_applied {σ ε : Type} :
    ∀ (st : List (Nat × SysOp σ ε)) (s : σ),
      (rollbackStack st s).2.filterMap appliedEventIdx = [] := by
  intro st
  induction st with
  | nil => intro s; rfl
  | cons p rest ih =>
    obtain ⟨i, op⟩ := p
    intro s
    show (rollbackStack ((i, op) :: rest) s).2.filterMap appliedEventIdx = []
    cases hrev : op.revert s with
    | mk s1 oe =>
      have hstep : rollbackStack ((i, op) :: rest) s =
          (match (op.revert s).2 with
           | none => ((rollbackStack rest (op.revert s).1).1,
               CommitEvent.reverted i :: (rollbackStack rest (op.revert s).1).2)
           | some e => ((rollbackStack rest (op.revert s).1).1,
               CommitEvent.reverted i :: CommitEvent.logged i e ::
                 (rollbackStack rest (op.revert s).1).2)) := rfl
      rw [hstep, hrev]
      cases oe with
      | none =>
        show (CommitEvent.reverted i :: (rollbackStack rest s1).2).filterMap
          appliedEventIdx = []
        rw [List.filterMap_cons]
        exact ih s1
      | some e1 =>
        show (CommitEvent.reverted i :: CommitEvent.logged i e1 ::
          (rollbackStack rest s1).2).filterMap appliedEventIdx = []
        rw [List.filterMap_cons, List.filterMap_cons]
        exact ih s1

/-- Rollback reverts exactly the stacked ops, in stack order. -/
theorem rollbackStack_reverted {σ ε : Type} :
    ∀ (st : List (Nat × SysOp σ ε)) (s : σ),
      (rollbackStack st s).2.filterMap revertedEventIdx = st.map Prod.fst := by
  intro st
  induction st with
  | nil => intro s; rfl
  | cons p rest ih =>
    obtain ⟨i, op⟩ := p
    intro s
    cases hrev : op.revert s with
    | mk s1 oe =>
      have hstep : rollbackStack ((i, op) :: rest) s =
          (match (op.revert s).2 with
           | none => ((rollbackStack rest (op.revert s).1).1,
               CommitEvent.reverted i :: (rollbackStack rest (op.revert s).1).2)
           | some e => ((rollbackStack rest (op.revert s).1).1,
               CommitEvent.reverted i :: CommitEvent.logged i e ::
                 (rollbackStack rest (op.revert s).1).2)) := rfl
      rw [hstep, hrev]
      cases oe with
      | none =>
        show (CommitEvent.reverted i :: (rollbackStack rest s1).2).filterMap
          revertedEventIdx = ((i, op) :: rest).map Prod.fst
        rw [List.filterMap_cons, List.map_cons, ih s1]
        rfl
      | some e1 =>
        show (CommitEvent.reverted i :: CommitEvent.logged i e1 ::
          (rollbackStack rest s1).2).filterMap revertedEventIdx =
          ((i, op) :: rest).map Prod.fst
        rw [List.filterMap_cons, List.filterMap_cons, List.map_cons, ih s1]
        rfl

/-- Apply events project back to their indices. -/
theorem filterMap_applied_map {ε : Type} (l : List Nat) :
    (l.map (CommitEvent.applied (ε := ε))).filterMap appliedEventIdx = l := by
  induction l with
  | nil => rfl
  | cons x xs ih =>
    rw [List.map_cons, List.filterMap_cons]
    show x :: (xs.map (CommitEvent.applied (ε := ε))).filterMap appliedEventIdx = x :: xs
    rw [ih]

/-- Apply events contain no revert events. -/
theorem filterMap_reverted_applied_map {ε : Type} (l : List Nat) :
    (l.map (CommitEvent.applied (ε := ε))).filterMap revertedEventIdx = [] := by
  induction l with
  | nil => rfl
  | cons x xs ih =>
    rw [List.map_cons, List.filterMap_cons]
    exact ih

/-- Claim C1: if every op before index `k` applies successfully and op `k`'s
apply fails with `e`, then `Commit` applies exactly ops `0..k-1` in order,
reverts exactly those ops in reverse order (`k-1` first, rollback errors are
logged as events and never replace the returned error), and returns the
original error wrapped as an `OpError` carrying op `k`'s tag with the revert
marker unset. -/
theorem sysCommit_fail_rollback {σ ε : Type} (ops : List (SysOp σ ε)) (s : σ)
    (k : Nat) (hk : k < ops.length) (sk : σ) (e : ε)
    (hpre : applySeq (ops.take k) s = some sk)
    (hfail : (ops.get ⟨k, hk⟩).apply sk = Except.error e) :
    (sysCommit ops s).1 = some ⟨(ops.get ⟨k, hk⟩).tag, e, false⟩ ∧
    (sysCommit ops s).2.2.filterMap appliedEventIdx = List.range k ∧
    (sysCommit ops s).2.2.filterMap revertedEventIdx = (List.range k).reverse := by
  have hdecomp : ops = ops.take k ++ (ops.get ⟨k, hk⟩) :: ops.drop (k + 1) := by
    conv_lhs => rw [← List.take_append_drop k ops]
    rw [List.drop_eq_getElem_cons hk, List.get_eq_getElem]
  have hlen : (ops.take k).length = k := by
    rw [List.length_take]
    omega
  have h := commitAux_fail (ops.get ⟨k, hk⟩) (ops.drop (k + 1)) e (ops.take k) 0 [] s sk
    hpre hfail
  rw [← hdecomp] at h
  unfold sysCommit
  rw [h]
  refine ⟨rfl, ?_, ?_⟩
  · show ((List.range' 0 (ops.take k).length).map CommitEvent.applied ++
      (rollbackStack (applyStack 0 (ops.take k) ++ []) sk).2).filterMap appliedEventIdx =
      List.range k
    rw [List.filterMap_append, rollbackStack_no_applied, filterMap_applied_map,
      List.append_nil, hlen, ← List.range_eq_range']
  · show ((List.range' 0 (ops.take k).length).map CommitEvent.applied ++
      (rollbackStack (applyStack 0 (ops.take k) ++ []) sk).2).filterMap revertedEventIdx =
      (List.range k).reverse
    rw [List.filterMap_append, rollbackStack_reverted, filterMap_reverted_applied_map,
      List.nil_append, List.append_nil]
    show (((List.range' 0 (ops.take k).length).zip (ops.take k)).reverse).map Prod.fst =
      (List.range k).reverse
    rw [List.map_reverse, List.map_fst_zip _ _ (by simp [List.length_range']),
      hlen, ← List.range_eq_range']

/-- Witness for C1: a two-op transaction whose second op fails applies the
first op, returns the wrapped error with the failing op's tag, and reverts
exactly the first op. -/
theorem sysCommit_fail_rollback_witness :
    (sysCommit [SysOp.mk "mkdir" 32 (fun s => Except.ok (s + 1)) (fun s => (s - 1, none)),
        SysOp.mk "xhost" 16 (fun _ => Except.error 7) (fun s => (s, none))] 0).1 =
      some ⟨"xhost", 7, false⟩ ∧
    (sysCommit [SysOp.mk "mkdir" 32 (fun s => Except.ok (s + 1)) (fun s => (s - 1, none)),
        SysOp.mk "xhost" 16 (fun _ => Except.error 7) (fun s => (s, none))] 0).2.2.filterMap
      appliedEventIdx = [0] ∧
    (sysCommit [SysOp.mk "mkdir" 32 (fun s => Except.ok (s + 1)) (fun s => (s - 1, none)),
        SysOp.mk "xhost" 16 (fun _ => Except.error 7) (fun s => (s, none))] 0).2.2.filterMap
      revertedEventIdx = [0] := by
  have h := sysCommit_fail_rollback
    [SysOp.mk "mkdir" 32 (fun s => Except.ok (s + 1)) (fun s => (s - 1, none)),
     SysOp.mk "xhost" 16 (fun _ => Except.error 7) (fun s => (s, none))] 0 1
    (by simp) 1 7 (by decide) (by decide)
  exact h
